import Mathlib

/-!
# Verification of the C-RW-WP reader-writer lock (`src/rwlock.c`)

A shallow embedding of the modified C-RW-WP ("Cohort Reader-Writer lock
with Writer Preference") implementation in `src/rwlock.c` / `src/rwlock.h`,
together with proofs of the specified properties.

The lock state (`struct rwlock` in `rwlock.h`) consists of four atomic
fields:

* `readers_ingress : atomic_uint_fast32_t` — reader-arrival counter,
* `readers_egress  : atomic_uint_fast32_t` — reader-departure counter,
* `writers_barrier : atomic_int_fast32_t`  — starvation barrier,
* `writers_lock    : atomic_bool`          — the exclusive writer flag.

The reader counters are `atomic_uint_fast32_t`: at least 32 bits wide
and wrapping on overflow.  They are *monotone* (only ever incremented),
so in a long enough execution they do wrap, no matter how small
`readers_ingress - readers_egress` stays.  The operation-level model
below therefore wraps the two reader counters modulo 2^32 — the
minimum width of `uint_fast32_t` and the width the spec assigns them;
every larger power-of-two width behaves identically.  The sequential
big-step functions and the fine-grained semantics keep unbounded `Nat`
counters: every property proved over them is a per-call delta property
(busy-rollback, difference preservation — equivariant under a common
wrap), a property of the flag alone, or a fixed short execution, none
of which the wrap can affect.  `writers_barrier` is a signed
`atomic_int_fast32_t` kept as `Int`: it is raised at most once per
`rdlock` call and lowered by the same call, so it stays bounded by the
number of simultaneously spinning readers (signed overflow would be
undefined behaviour in the C, not a wrap).

Three levels of embedding are used, all translated directly from the C:

1. **Sequential big-step functions** (`rwlock_tryrdlock`, `rwlock_trywrlock`,
   `rwlock_tryupgrade`, `rwlock_wrunlock`, `rwlock_downgrade`,
   `rwlock_rdunlock`, `rwlock_init`, `rwlock_destroy`, `rwlock_wrlock`):
   the effect of one whole call executing without interference.  Calls
   containing an `assert` return `Option` (`none` = assertion failure);
   the blocking `rwlock_wrlock` returns `none` when, without interference,
   its spin loops would never exit.  The weak compare-and-swap
   (`atomic_compare_exchange_weak_acq_rel`) may fail spuriously, so the
   functions that use it take an explicit `casOk : Bool` oracle: the CAS
   succeeds iff the flag is clear *and* the oracle allows it.

2. **An operation-level multi-caller transition system** (`OpStep`):
   whole operations applied atomically by a set of callers, each carrying
   a ghost holding (`none` / `rd` / `wr`); the release-type operations are
   only enabled for a caller holding the corresponding access.  The
   reader counters wrap modulo 2^32 here, as in the C.  This is the
   "sequence of operations" semantics of the data-model invariants.

3. **A fine-grained interleaving semantics** (`Phase`, `threadStep`,
   `Step`): each thread is a program counter over the individual atomic
   instructions of `rwlock.c`; any interleaving of any number of threads.
   Used for the concurrency properties (mutual exclusion, the writer
   barrier).
-/

set_option maxHeartbeats 1000000
set_option maxRecDepth 100000

namespace RwLock


/-- `struct rwlock` (`rwlock.h`): the four atomic fields.  The cache-line
padding bytes are layout only and carry no value. -/
structure LockState where
  readers_ingress : Nat
  readers_egress : Nat
  writers_barrier : Int
  writers_lock : Bool
deriving DecidableEq, Repr

/-- `RWLOCK_UNLOCKED` (`rwlock.c` line 66). -/
def RWLOCK_UNLOCKED : Bool := false

/-- `RWLOCK_LOCKED` (`rwlock.c` line 67). -/
def RWLOCK_LOCKED : Bool := true

/-- `RWLOCK_MAX_READER_PATIENCE` (`rwlock.c` line 74). -/
def RWLOCK_MAX_READER_PATIENCE : Nat := 500

/-- `EBUSY` as returned by the `try` operations (Linux `errno` value 16). -/
def EBUSY : Int := 16

/-- `read_indicator_arrive` (lines 82-85): `readers_ingress += 1`. -/
def read_indicator_arrive (s : LockState) : LockState :=
  { s with readers_ingress := s.readers_ingress + 1 }

/-- `read_indicator_depart` (lines 87-90): `readers_egress += 1`. -/
def read_indicator_depart (s : LockState) : LockState :=
  { s with readers_egress := s.readers_egress + 1 }

/-- `read_indicator_isempty` (lines 92-95):
`readers_egress == readers_ingress`. -/
def read_indicator_isempty (s : LockState) : Bool :=
  s.readers_egress == s.readers_ingress

/-- `writers_barrier_raise` (lines 97-100): `writers_barrier += 1`. -/
def writers_barrier_raise (s : LockState) : LockState :=
  { s with writers_barrier := s.writers_barrier + 1 }

/-- `writers_barrier_lower` (lines 102-105): `writers_barrier -= 1`. -/
def writers_barrier_lower (s : LockState) : LockState :=
  { s with writers_barrier := s.writers_barrier - 1 }

/-- `writers_barrier_israised` (lines 107-110): `writers_barrier > 0`. -/
def writers_barrier_israised (s : LockState) : Bool :=
  decide (s.writers_barrier > 0)

/-- `writers_lock_islocked` (lines 112-115). -/
def writers_lock_islocked (s : LockState) : Bool :=
  s.writers_lock == RWLOCK_LOCKED

/-- `writers_lock_acquire` (lines 117-120): weak compare-and-swap
`UNLOCKED → LOCKED`.  A weak CAS may fail spuriously even when the flag
is clear, so success additionally requires the `casOk` oracle; it can
never succeed while the flag is set.  Returns (succeeded, new state). -/
def writers_lock_acquire (casOk : Bool) (s : LockState) : Bool × LockState :=
  if s.writers_lock = RWLOCK_UNLOCKED && casOk then
    (true, { s with writers_lock := RWLOCK_LOCKED })
  else
    (false, s)

/-- `writers_lock_release` (lines 122-127): strong compare-and-swap
`LOCKED → UNLOCKED` followed by `assert(done)`.  `none` models the fatal
assertion failure when the flag was not held. -/
def writers_lock_release (s : LockState) : Option LockState :=
  if s.writers_lock = RWLOCK_LOCKED then
    some { s with writers_lock := RWLOCK_UNLOCKED }
  else
    none

/-- `rwlock_tryrdlock` (lines 159-171): arrive, check the writer flag,
depart again (returning `EBUSY`) if a writer holds the lock. -/
def rwlock_tryrdlock (s : LockState) : Int × LockState :=
  let s₁ := read_indicator_arrive s
  if writers_lock_islocked s₁ then
    (EBUSY, read_indicator_depart s₁)
  else
    (0, s₁)

/-- `rwlock_rdunlock` (lines 173-176). -/
def rwlock_rdunlock (s : LockState) : LockState :=
  read_indicator_depart s

/-- `rwlock_tryupgrade` (lines 178-202).  `none` would model an assertion
failure inside `writers_lock_release`; on the rollback path the flag has
just been acquired, so the release in fact always succeeds. -/
def rwlock_tryupgrade (casOk : Bool) (s : LockState) : Option (Int × LockState) :=
  if writers_barrier_israised s then
    some (EBUSY, s)
  else
    match writers_lock_acquire casOk s with
    | (false, s₁) => some (EBUSY, s₁)
    | (true, s₁) =>
      let s₂ := read_indicator_depart s₁
      if !read_indicator_isempty s₂ then
        let s₃ := read_indicator_arrive s₂
        (writers_lock_release s₃).map fun s₄ => (EBUSY, s₄)
      else
        some (0, s₂)

/-- `rwlock_wrlock` (lines 215-228) as a big step without interference:
the call returns only if the barrier is down, the weak CAS eventually
succeeds (`casOk`, since the flag cannot change under our feet) and the
read indicator is empty; otherwise one of the three spin loops would
never exit and the big step is `none`. -/
def rwlock_wrlock (casOk : Bool) (s : LockState) : Option LockState :=
  if writers_barrier_israised s then
    none
  else
    match writers_lock_acquire casOk s with
    | (false, _) => none
    | (true, s₁) =>
      if read_indicator_isempty s₁ then some s₁ else none

/-- `rwlock_wrunlock` (lines 230-233): just `writers_lock_release`,
`none` = the `assert(done)` fails. -/
def rwlock_wrunlock (s : LockState) : Option LockState :=
  writers_lock_release s

/-- `rwlock_trywrlock` (lines 235-255). -/
def rwlock_trywrlock (casOk : Bool) (s : LockState) : Option (Int × LockState) :=
  if writers_barrier_israised s then
    some (EBUSY, s)
  else
    match writers_lock_acquire casOk s with
    | (false, s₁) => some (EBUSY, s₁)
    | (true, s₁) =>
      if !read_indicator_isempty s₁ then
        (writers_lock_release s₁).map fun s₂ => (EBUSY, s₂)
      else
        some (0, s₁)

/-- `rwlock_downgrade` (lines 257-262): post a read-indicator arrival,
then release the exclusive flag, in that order. -/
def rwlock_downgrade (s : LockState) : Option LockState :=
  writers_lock_release (read_indicator_arrive s)

/-- `rwlock_init` (lines 264-270): unconditionally store the fresh
state; there is no precondition check and no assertion. -/
def rwlock_init (_s : LockState) : LockState :=
  { readers_ingress := 0, readers_egress := 0, writers_barrier := 0,
    writers_lock := RWLOCK_UNLOCKED }

/-- The state `rwlock_init` produces. -/
def initState : LockState :=
  { readers_ingress := 0, readers_egress := 0, writers_barrier := 0,
    writers_lock := RWLOCK_UNLOCKED }

/-- `rwlock_destroy` (lines 272-279): asserts the write lock is unlocked
and the read indicator is empty; `none` = assertion failure. -/
def rwlock_destroy (s : LockState) : Option Unit :=
  if s.writers_lock = RWLOCK_UNLOCKED then
    if read_indicator_isempty s then some () else none
  else
    none

/-! ## The process-wide worker hint

`_crwlock_workers` (line 64) is a process-wide `atomic_uint_fast16_t`,
written by `rwlock_setworkers` (lines 281-284) and read by nothing.  The
global state couples it with a lock instance. -/

/-- A lock instance together with the process-wide `_crwlock_workers`
cell (initialized to 128 at line 64). -/
structure GlobalState where
  lock : LockState
  workers : Nat
deriving DecidableEq, Repr

/-- `rwlock_setworkers` (lines 281-284): store the `uint16_t` argument
into `_crwlock_workers`.  The argument is reduced mod 2^16 at the call
boundary (`uint16_t` conversion). -/
def rwlock_setworkers (w : Nat) (g : GlobalState) : GlobalState :=
  { g with workers := w % 65536 }

/-- `rwlock_rdlock` (lines 131-157) as a big step without interference:
the first arrival succeeds iff no writer holds the flag; otherwise the
inner spin loop would never exit (`none`). -/
def rwlock_rdlock (s : LockState) : Option LockState :=
  let s₁ := read_indicator_arrive s
  if writers_lock_islocked s₁ then none else some s₁

/-- The wrap modulus of the reader counters: `uint_fast32_t` is at
least 32 bits wide, and `atomic_fetch_add_release` wraps at the type's
width; the model uses the minimum width 2^32 (the spec's "unsigned
32-bit counter").  Any larger power-of-two width behaves the same. -/
def UINT_FAST32_WRAP : Nat := 4294967296

/-- `read_indicator_arrive` (line 84) with the `uint_fast32_t`
wraparound of the fetch-add. -/
def wrap_arrive (s : LockState) : LockState :=
  { s with readers_ingress := (s.readers_ingress + 1) % UINT_FAST32_WRAP }

/-- `read_indicator_depart` (line 89) with wraparound. -/
def wrap_depart (s : LockState) : LockState :=
  { s with readers_egress := (s.readers_egress + 1) % UINT_FAST32_WRAP }

/-- `rwlock_rdlock` as a big step, with wrapping counters. -/
def wrdlock (s : LockState) : Option LockState :=
  let s₁ := wrap_arrive s
  if writers_lock_islocked s₁ then none else some s₁

/-- `rwlock_tryrdlock` with wrapping counters. -/
def wtryrdlock (s : LockState) : Int × LockState :=
  let s₁ := wrap_arrive s
  if writers_lock_islocked s₁ then
    (EBUSY, wrap_depart s₁)
  else
    (0, s₁)

/-- `rwlock_rdunlock` with wrapping counters. -/
def wrdunlock (s : LockState) : LockState :=
  wrap_depart s

/-- `rwlock_tryupgrade` with wrapping counters. -/
def wtryupgrade (casOk : Bool) (s : LockState) : Option (Int × LockState) :=
  if writers_barrier_israised s then
    some (EBUSY, s)
  else
    match writers_lock_acquire casOk s with
    | (false, s₁) => some (EBUSY, s₁)
    | (true, s₁) =>
      let s₂ := wrap_depart s₁
      if !read_indicator_isempty s₂ then
        let s₃ := wrap_arrive s₂
        (writers_lock_release s₃).map fun s₄ => (EBUSY, s₄)
      else
        some (0, s₂)

/-- `rwlock_downgrade` with wrapping counters. -/
def wdowngrade (s : LockState) : Option LockState :=
  writers_lock_release (wrap_arrive s)

/-! ## Operation-level multi-caller semantics

Callers apply whole operations atomically, in any order.  Each caller
carries its ghost holdings: a count of read credentials and a write
flag.  Acquisition operations are unconstrained (if the code would spin
forever the big step is simply not enabled); the release-type operations
`rdunlock`, `wrunlock`, `tryupgrade` and `downgrade` are enabled only
for a caller holding the corresponding access, which is the usage
discipline of the data-model invariant.  The reader counters wrap
modulo `UINT_FAST32_WRAP` as in the C; `wrlock`, `trywrlock` and
`wrunlock` never touch the counters, so their unbounded big steps are
reused unchanged. -/

/-- Ghost holdings of one caller: how many read credentials it holds and
whether it holds the write lock. -/
structure CallerHold where
  rd : Nat
  wr : Bool
deriving DecidableEq, Repr

/-- A fresh caller holding nothing. -/
def CallerHold.none : CallerHold := ⟨0, false⟩

/-- Configurations of the operation-level system: the ghost holdings of
each caller plus the shared lock state. -/
structure OpState where
  holds : List CallerHold
  lock : LockState
deriving DecidableEq, Repr

/-- One completed operation by caller `i`.  The lock-state effect of
each constructor is the corresponding sequential big-step function; a
blocking operation that would spin forever, or an operation whose
assertion would fail, is not enabled. -/
inductive OpStep : OpState → OpState → Prop where
  | rdlock {holds : List CallerHold} {s s' : LockState} (i : Nat) (c : CallerHold) :
      holds.get? i = some c →
      wrdlock s = some s' →
      OpStep ⟨holds, s⟩ ⟨holds.set i { c with rd := c.rd + 1 }, s'⟩
  | tryrdlock {holds : List CallerHold} {s : LockState} (i : Nat) (c : CallerHold)
      (r : Int) (s' : LockState) :
      holds.get? i = some c →
      wtryrdlock s = (r, s') →
      OpStep ⟨holds, s⟩
        ⟨holds.set i (if r = 0 then { c with rd := c.rd + 1 } else c), s'⟩
  | rdunlock {holds : List CallerHold} {s : LockState} (i : Nat) (c : CallerHold) :
      holds.get? i = some c →
      c.rd ≥ 1 →
      OpStep ⟨holds, s⟩ ⟨holds.set i { c with rd := c.rd - 1 }, wrdunlock s⟩
  | wrlock {holds : List CallerHold} {s s' : LockState} (i : Nat) (c : CallerHold)
      (cas : Bool) :
      holds.get? i = some c →
      rwlock_wrlock cas s = some s' →
      OpStep ⟨holds, s⟩ ⟨holds.set i { c with wr := true }, s'⟩
  | trywrlock {holds : List CallerHold} {s : LockState} (i : Nat) (c : CallerHold)
      (cas : Bool) (r : Int) (s' : LockState) :
      holds.get? i = some c →
      rwlock_trywrlock cas s = some (r, s') →
      OpStep ⟨holds, s⟩
        ⟨holds.set i (if r = 0 then { c with wr := true } else c), s'⟩
  | wrunlock {holds : List CallerHold} {s s' : LockState} (i : Nat) (c : CallerHold) :
      holds.get? i = some c →
      c.wr = true →
      rwlock_wrunlock s = some s' →
      OpStep ⟨holds, s⟩ ⟨holds.set i { c with wr := false }, s'⟩
  | tryupgrade {holds : List CallerHold} {s : LockState} (i : Nat) (c : CallerHold)
      (cas : Bool) (r : Int) (s' : LockState) :
      holds.get? i = some c →
      c.rd ≥ 1 →
      wtryupgrade cas s = some (r, s') →
      OpStep ⟨holds, s⟩
        ⟨holds.set i (if r = 0 then { c with rd := c.rd - 1, wr := true } else c), s'⟩
  | downgrade {holds : List CallerHold} {s s' : LockState} (i : Nat) (c : CallerHold) :
      holds.get? i = some c →
      c.wr = true →
      wdowngrade s = some s' →
      OpStep ⟨holds, s⟩
        ⟨holds.set i { c with rd := c.rd + 1, wr := false }, s'⟩

/-- States reachable from a freshly initialized lock with `n` callers,
each holding nothing, by completed operations. -/
inductive OpReachable : OpState → Prop where
  | init (n : Nat) : OpReachable ⟨List.replicate n CallerHold.none, initState⟩
  | step {a b : OpState} : OpReachable a → OpStep a b → OpReachable b

/-- Total number of read credentials currently held by any caller. -/
def heldReaders (holds : List CallerHold) : Nat :=
  (holds.map CallerHold.rd).sum

/-- The operation-level inductive invariant with wrapping counters: the
stored ingress counter is the stored egress counter plus the total
number of read credentials held, modulo the counter width; both stored
counters are reduced values. -/
def OpInv (os : OpState) : Prop :=
  os.lock.readers_ingress =
    (os.lock.readers_egress + heldReaders os.holds) % UINT_FAST32_WRAP ∧
  os.lock.readers_egress < UINT_FAST32_WRAP ∧
  os.lock.readers_ingress < UINT_FAST32_WRAP

/-- The reachable state refuting `readers_egress ≤ readers_ingress`:
one caller, `2^32 - 1` completed `rdlock`/`rdunlock` pairs, then one
more `rdlock`; the ingress counter has wrapped to 0 while the egress
counter is `2^32 - 1`. -/
def wrapBadState : OpState :=
  ⟨[⟨1, false⟩],
   { readers_ingress := 0, readers_egress := 4294967295,
     writers_barrier := 0, writers_lock := false }⟩

/-- A concrete reachable operation-level state: two callers, the first
holding one read credential after a completed `rdlock`. -/
def opWitnessState : OpState :=
  ⟨[⟨1, false⟩, ⟨0, false⟩],
   { readers_ingress := 1, readers_egress := 0, writers_barrier := 0,
     writers_lock := false }⟩

/-! ## Fine-grained interleaving semantics

Each thread executes the operations of `rwlock.c` one atomic instruction
at a time.  `Phase` is a thread's program counter, including the local
variables of `rwlock_rdlock` (`cnt`, `barrier_raised`) and the value of
the first of the two separate atomic loads inside
`read_indicator_isempty` (line 94 loads `readers_egress`, then
`readers_ingress`).  `idle h` is a thread outside any call, with ghost
credentials `h`. -/

/-- Ghost credentials of an idle thread. -/
inductive Hold where
  | hnone
  | hrd
  | hwr
deriving DecidableEq, Repr

/-- Program counters over the atomic instructions of `rwlock.c`. -/
inductive Phase where
  | idle (h : Hold)
  | rdArrive (b : Bool) (cnt : Nat)
  | rdCheck (b : Bool) (cnt : Nat)
  | rdDepart (b : Bool) (cnt : Nat)
  | rdSpin (b : Bool) (cnt : Nat)
  | rdPatience (b : Bool) (cnt : Nat)
  | rdLower
  | trdArrive
  | trdCheck
  | trdDepart
  | rduDepart
  | wrBarrier
  | wrCas
  | wrWaitE
  | wrWaitI (e : Nat)
  | wruRelease
  | twrBarrier
  | twrCas
  | twrEmptyE
  | twrEmptyI (e : Nat)
  | twrRelease
  | tuBarrier
  | tuCas
  | tuDepart
  | tuEmptyE
  | tuEmptyI (e : Nat)
  | tuArrive
  | tuRelease
  | dgArrive
  | dgRelease
deriving DecidableEq, Repr

/-- One atomic instruction of a thread at phase `p` against lock state
`s`; `casOk` resolves the spurious-failure nondeterminism of the weak
CAS.  `none` when the thread is idle (nothing to execute) or its
assertion failed.

Program counters per source line of `rwlock.c`:
`rdArrive` line 137; `rdCheck` line 138; `rdDepart` line 144; `rdSpin`
line 146; `rdPatience` lines 147-151 (the raise at line 149 is the one
atomic action); `rdLower` line 155; `trdArrive` line 161; `trdCheck`
line 162; `trdDepart` line 164; `rduDepart` line 175; `wrBarrier` line
218; `wrCas` line 223; `wrWaitE`/`wrWaitI` lines 207-212 via line 94
(egress load, then ingress load); `wruRelease` line 232; `twrBarrier`
line 238; `twrCas` line 243; `twrEmptyE`/`twrEmptyI` line 247;
`twrRelease` line 249; `tuBarrier` line 181; `tuCas` line 186;
`tuDepart` line 191; `tuEmptyE`/`tuEmptyI` line 193; `tuArrive` line
195; `tuRelease` line 198; `dgArrive` line 259; `dgRelease` line 261. -/
def threadStep (p : Phase) (s : LockState) (casOk : Bool) :
    Option (Phase × LockState) :=
  match p with
  | .idle _ => none
  | .rdArrive b cnt => some (.rdCheck b cnt, read_indicator_arrive s)
  | .rdCheck b cnt =>
    if writers_lock_islocked s then some (.rdDepart b cnt, s)
    else if b then some (.rdLower, s) else some (.idle .hrd, s)
  | .rdDepart b cnt => some (.rdSpin b cnt, read_indicator_depart s)
  | .rdSpin b cnt =>
    if writers_lock_islocked s then some (.rdPatience b cnt, s)
    else some (.rdArrive b cnt, s)
  | .rdPatience b cnt =>
    if cnt ≥ RWLOCK_MAX_READER_PATIENCE && !b then
      some (.rdSpin true (cnt + 1), writers_barrier_raise s)
    else
      some (.rdSpin b (cnt + 1), s)
  | .rdLower => some (.idle .hrd, writers_barrier_lower s)
  | .trdArrive => some (.trdCheck, read_indicator_arrive s)
  | .trdCheck =>
    if writers_lock_islocked s then some (.trdDepart, s)
    else some (.idle .hrd, s)
  | .trdDepart => some (.idle .hnone, read_indicator_depart s)
  | .rduDepart => some (.idle .hnone, read_indicator_depart s)
  | .wrBarrier =>
    if writers_barrier_israised s then some (.wrBarrier, s)
    else some (.wrCas, s)
  | .wrCas =>
    match writers_lock_acquire casOk s with
    | (true, s') => some (.wrWaitE, s')
    | (false, s') => some (.wrCas, s')
  | .wrWaitE => some (.wrWaitI s.readers_egress, s)
  | .wrWaitI e =>
    if e == s.readers_ingress then some (.idle .hwr, s)
    else some (.wrWaitE, s)
  | .wruRelease => (writers_lock_release s).map fun s' => (.idle .hnone, s')
  | .twrBarrier =>
    if writers_barrier_israised s then some (.idle .hnone, s)
    else some (.twrCas, s)
  | .twrCas =>
    match writers_lock_acquire casOk s with
    | (true, s') => some (.twrEmptyE, s')
    | (false, s') => some (.idle .hnone, s')
  | .twrEmptyE => some (.twrEmptyI s.readers_egress, s)
  | .twrEmptyI e =>
    if e == s.readers_ingress then some (.idle .hwr, s)
    else some (.twrRelease, s)
  | .twrRelease => (writers_lock_release s).map fun s' => (.idle .hnone, s')
  | .tuBarrier =>
    if writers_barrier_israised s then some (.idle .hrd, s)
    else some (.tuCas, s)
  | .tuCas =>
    match writers_lock_acquire casOk s with
    | (true, s') => some (.tuDepart, s')
    | (false, s') => some (.idle .hrd, s')
  | .tuDepart => some (.tuEmptyE, read_indicator_depart s)
  | .tuEmptyE => some (.tuEmptyI s.readers_egress, s)
  | .tuEmptyI e =>
    if e == s.readers_ingress then some (.idle .hwr, s)
    else some (.tuArrive, s)
  | .tuArrive => some (.tuRelease, read_indicator_arrive s)
  | .tuRelease => (writers_lock_release s).map fun s' => (.idle .hrd, s')
  | .dgArrive => some (.dgRelease, read_indicator_arrive s)
  | .dgRelease => (writers_lock_release s).map fun s' => (.idle .hrd, s')

/-- Which operation entry points a thread may invoke given its ghost
credentials: holding nothing it may call `rdlock` (locals initialized
per lines 133-134), `tryrdlock`, `wrlock` or `trywrlock`; holding a read
credential it may call `rdunlock` or `tryupgrade`; holding the write
lock it may call `wrunlock` or `downgrade`. -/
def canInvoke (h : Hold) (p : Phase) : Bool :=
  match h, p with
  | .hnone, .rdArrive b cnt => !b && cnt == 0
  | .hnone, .trdArrive => true
  | .hnone, .wrBarrier => true
  | .hnone, .twrBarrier => true
  | .hrd, .rduDepart => true
  | .hrd, .tuBarrier => true
  | .hwr, .wruRelease => true
  | .hwr, .dgArrive => true
  | _, _ => false

/-- A configuration of the interleaving system: the phase of each thread
plus the shared lock state. -/
structure Config where
  threads : List Phase
  lock : LockState
deriving DecidableEq, Repr

/-- A scheduler choice for one thread: invoke an operation (entry
phase), or execute the thread's next atomic instruction. -/
inductive Act where
  | invoke (p : Phase)
  | exec (casOk : Bool)
deriving DecidableEq, Repr

/-- Execute one scheduler choice for thread `i`. -/
def doAct (c : Config) (i : Nat) (a : Act) : Option Config :=
  match c.threads.get? i, a with
  | some (.idle h), .invoke p =>
    if canInvoke h p then some ⟨c.threads.set i p, c.lock⟩ else none
  | some p, .exec cas =>
    (threadStep p c.lock cas).map fun q => ⟨c.threads.set i q.1, q.2⟩
  | _, _ => none

/-- The interleaving step relation: some thread invokes an operation or
executes one atomic instruction. -/
def Step (c c' : Config) : Prop := ∃ i a, doAct c i a = some c'

/-- Initial configuration: `n` idle threads holding nothing, lock as
produced by `rwlock_init`. -/
def initConfig (n : Nat) : Config :=
  ⟨List.replicate n (.idle .hnone), initState⟩

/-- Configurations reachable from an initial configuration by any
interleaving. -/
inductive Reachable : Config → Prop where
  | init (n : Nat) : Reachable (initConfig n)
  | step {c c' : Config} : Reachable c → Step c c' → Reachable c'

/-- Run a schedule (a list of per-thread choices); `none` if some choice
is not enabled. -/
def run (c : Config) : List (Nat × Act) → Option Config
  | [] => some c
  | (i, a) :: rest =>
    match doAct c i a with
    | some c' => run c' rest
    | none => none

/-- A thread in the writer region: it has performed a successful
writer-flag CAS (in `wrlock`, `trywrlock` or `tryupgrade`) whose
matching release (`wrunlock`, `downgrade`, or the internal rollback
release of the `try` operations) has not yet executed. -/
def inWriterRegion : Phase → Bool
  | .idle .hwr => true
  | .wrWaitE => true
  | .wrWaitI _ => true
  | .wruRelease => true
  | .twrEmptyE => true
  | .twrEmptyI _ => true
  | .twrRelease => true
  | .tuDepart => true
  | .tuEmptyE => true
  | .tuEmptyI _ => true
  | .tuArrive => true
  | .tuRelease => true
  | .dgArrive => true
  | .dgRelease => true
  | _ => false

/-- The writer-flag invariant: the flag is set iff exactly one thread is
in the writer region. -/
def WInv (c : Config) : Prop :=
  c.threads.countP inWriterRegion = if c.lock.writers_lock then 1 else 0

/-- A reachable configuration with one thread holding the write lock
(after a completed `wrlock`). -/
def mutexWitnessConfig : Config :=
  ⟨[.idle .hwr], ⟨0, 0, 0, true⟩⟩

/-- The schedule reaching `mutexWitnessConfig` from one fresh thread. -/
def mutexWitnessSched : List (Nat × Act) :=
  [(0, .invoke .wrBarrier), (0, .exec true), (0, .exec true),
   (0, .exec true), (0, .exec true)]

/-! ## The writer barrier (C6)

`rwlock_wrlock` checks the barrier (line 218) and only then CASes the
flag (line 223); the two are not atomic together, so a writer that
passed the check while the barrier was down may still complete its
acquisition after a starved reader raises the barrier.  The schedule
below exhibits this: thread 1 holds the write lock, thread 0 runs
`rdlock`, spins past `RWLOCK_MAX_READER_PATIENCE` and raises the
barrier; thread 2 had already passed the barrier check, and after
thread 1 unlocks, thread 2's CAS succeeds and its `wrlock` call
completes while the barrier is still raised. -/

/-- Schedule: writer 1 locks; reader 0 arrives, retreats and spins past
patience, raising the barrier; writer 2 passes the barrier check before
the raise; writer 1 unlocks. -/
def c6sched : List (Nat × Act) :=
  [(1, .invoke .wrBarrier), (1, .exec true), (1, .exec true),
   (1, .exec true), (1, .exec true),
   (0, .invoke (.rdArrive false 0)), (0, .exec true), (0, .exec true),
   (0, .exec true),
   (2, .invoke .wrBarrier), (2, .exec true)]
  ++ List.replicate 1002 (0, Act.exec true)
  ++ [(1, .invoke .wruRelease), (1, .exec true)]

/-- After `c6sched`: the barrier is raised (1), the lock is free, and
writer 2 sits at its CAS, already past the barrier check. -/
def c6Mid : Config :=
  ⟨[.rdSpin true 501, .idle .hnone, .wrCas], ⟨1, 1, 1, false⟩⟩

/-- Writer 2's CAS succeeded while the barrier is raised. -/
def c6A : Config :=
  ⟨[.rdSpin true 501, .idle .hnone, .wrWaitE], ⟨1, 1, 1, true⟩⟩

/-- Writer 2 read `readers_egress`. -/
def c6B : Config :=
  ⟨[.rdSpin true 501, .idle .hnone, .wrWaitI 1], ⟨1, 1, 1, true⟩⟩

/-- Writer 2's `wrlock` call completed: it holds the write lock while
the barrier is still raised. -/
def c6C : Config :=
  ⟨[.rdSpin true 501, .idle .hnone, .idle .hwr], ⟨1, 1, 1, true⟩⟩

/-- The program counters belonging to `rwlock_trywrlock`. -/
def isTrywrPhase : Phase → Bool
  | .twrBarrier => true
  | .twrCas => true
  | .twrEmptyE => true
  | .twrEmptyI _ => true
  | .twrRelease => true
  | _ => false

/-! ## Characterizations of the sequential big-step operations

Each lemma rewrites an operation into an explicit case split on the
pre-state, by symbolic execution of the definition. -/

/-- `rwlock_tryrdlock` in explicit form: both counters move on the busy
path, only the ingress counter on the success path. -/
theorem tryrdlock_eq (s : LockState) :
    rwlock_tryrdlock s =
      if s.writers_lock then
        (EBUSY, { s with readers_ingress := s.readers_ingress + 1,
                         readers_egress := s.readers_egress + 1 })
      else
        (0, { s with readers_ingress := s.readers_ingress + 1 }) := by
  simp only [rwlock_tryrdlock, read_indicator_arrive, read_indicator_depart,
    writers_lock_islocked, RWLOCK_LOCKED]
  cases s.writers_lock <;> simp

/-- `rwlock_trywrlock` in explicit form. -/
theorem trywrlock_eq (cas : Bool) (s : LockState) :
    rwlock_trywrlock cas s =
      if s.writers_barrier > 0 then some (EBUSY, s)
      else if s.writers_lock = false ∧ cas = true then
        (if s.readers_egress = s.readers_ingress then
           some (0, { s with writers_lock := true })
         else some (EBUSY, s))
      else some (EBUSY, s) := by
  cases s with
  | mk ri re wb wl =>
    simp only [rwlock_trywrlock, writers_barrier_israised, writers_lock_acquire,
      read_indicator_isempty, writers_lock_release, RWLOCK_LOCKED, RWLOCK_UNLOCKED]
    by_cases hb : wb > 0
    · simp [hb]
    · by_cases he : re = ri <;> cases wl <;> cases cas <;> simp [hb, he]

/-- `rwlock_tryupgrade` in explicit form. -/
theorem tryupgrade_eq (cas : Bool) (s : LockState) :
    rwlock_tryupgrade cas s =
      if s.writers_barrier > 0 then some (EBUSY, s)
      else if s.writers_lock = false ∧ cas = true then
        (if s.readers_egress + 1 = s.readers_ingress then
           some (0, { s with readers_egress := s.readers_egress + 1,
                             writers_lock := true })
         else some (EBUSY, { s with readers_ingress := s.readers_ingress + 1,
                                    readers_egress := s.readers_egress + 1 }))
      else some (EBUSY, s) := by
  cases s with
  | mk ri re wb wl =>
    simp only [rwlock_tryupgrade, writers_barrier_israised, writers_lock_acquire,
      read_indicator_arrive, read_indicator_depart, read_indicator_isempty,
      writers_lock_release, RWLOCK_LOCKED, RWLOCK_UNLOCKED]
    by_cases hb : wb > 0
    · simp [hb]
    · by_cases he : re + 1 = ri <;> cases wl <;> cases cas <;> simp [hb, he]

/-- `rwlock_wrlock` (big step, no interference) in explicit form. -/
theorem wrlock_eq (cas : Bool) (s : LockState) :
    rwlock_wrlock cas s =
      if s.writers_barrier > 0 then none
      else if s.writers_lock = false ∧ cas = true then
        (if s.readers_egress = s.readers_ingress then
           some { s with writers_lock := true }
         else none)
      else none := by
  cases s with
  | mk ri re wb wl =>
    simp only [rwlock_wrlock, writers_barrier_israised, writers_lock_acquire,
      read_indicator_isempty, RWLOCK_LOCKED, RWLOCK_UNLOCKED]
    by_cases hb : wb > 0
    · simp [hb]
    · by_cases he : re = ri <;> cases wl <;> cases cas <;> simp [hb, he]

/-- `rwlock_rdlock` (big step) in explicit form. -/
theorem rdlock_eq (s : LockState) :
    rwlock_rdlock s =
      if s.writers_lock then none
      else some { s with readers_ingress := s.readers_ingress + 1 } := by
  simp only [rwlock_rdlock, read_indicator_arrive, writers_lock_islocked,
    RWLOCK_LOCKED]
  cases s.writers_lock <;> simp

/-- `rwlock_downgrade` in explicit form: the arrival is posted and the
flag released; the release asserts that the flag was held. -/
theorem downgrade_eq (s : LockState) :
    rwlock_downgrade s =
      if s.writers_lock then
        some { s with readers_ingress := s.readers_ingress + 1,
                      writers_lock := false }
      else none := by
  cases hw : s.writers_lock <;>
    simp [rwlock_downgrade, read_indicator_arrive, writers_lock_release,
      RWLOCK_LOCKED, RWLOCK_UNLOCKED, hw]

/-- Updating entry `i` of a list changes a mapped sum by the difference
between the new and the old entry. -/
theorem sum_map_set {α : Type} (f : α → Nat) :
    ∀ (l : List α) (i : Nat) (a b : α), l.get? i = some b →
      ((l.set i a).map f).sum + f b = (l.map f).sum + f a := by
  intro l
  induction l with
  | nil => intro i a b h; simp at h
  | cons x xs ih =>
    intro i a b h
    cases i with
    | zero =>
      simp only [List.get?] at h
      cases h
      simp only [List.set, List.map_cons, List.sum_cons]
      omega
    | succ j =>
      simp only [List.get?] at h
      have hx := ih j a b h
      simp only [List.set, List.map_cons, List.sum_cons]
      omega

/-- No read credential is held iff every caller's count is zero. -/
theorem heldReaders_eq_zero_iff (hs : List CallerHold) :
    heldReaders hs = 0 ↔ ∀ c ∈ hs, c.rd = 0 := by
  induction hs with
  | nil => simp [heldReaders]
  | cons x xs ih =>
    simp only [heldReaders, List.map_cons, List.sum_cons] at ih ⊢
    rw [Nat.add_eq_zero]
    simp [List.forall_mem_cons, ih]

/-- `wrdlock` in explicit form. -/
theorem wrdlock_eq (s : LockState) :
    wrdlock s =
      if s.writers_lock then none
      else some { s with readers_ingress :=
        (s.readers_ingress + 1) % UINT_FAST32_WRAP } := by
  simp only [wrdlock, wrap_arrive, writers_lock_islocked, RWLOCK_LOCKED]
  cases s.writers_lock <;> simp

/-- `wtryrdlock` in explicit form. -/
theorem wtryrdlock_eq (s : LockState) :
    wtryrdlock s =
      if s.writers_lock then
        (EBUSY, { s with
          readers_ingress := (s.readers_ingress + 1) % UINT_FAST32_WRAP,
          readers_egress := (s.readers_egress + 1) % UINT_FAST32_WRAP })
      else
        (0, { s with
          readers_ingress := (s.readers_ingress + 1) % UINT_FAST32_WRAP }) := by
  simp only [wtryrdlock, wrap_arrive, wrap_depart, writers_lock_islocked,
    RWLOCK_LOCKED]
  cases s.writers_lock <;> simp

/-- `wtryupgrade` in explicit form. -/
theorem wtryupgrade_eq (cas : Bool) (s : LockState) :
    wtryupgrade cas s =
      if s.writers_barrier > 0 then some (EBUSY, s)
      else if s.writers_lock = false ∧ cas = true then
        (if (s.readers_egress + 1) % UINT_FAST32_WRAP = s.readers_ingress then
           some (0, { s with
             readers_egress := (s.readers_egress + 1) % UINT_FAST32_WRAP,
             writers_lock := true })
         else some (EBUSY, { s with
             readers_ingress := (s.readers_ingress + 1) % UINT_FAST32_WRAP,
             readers_egress := (s.readers_egress + 1) % UINT_FAST32_WRAP }))
      else some (EBUSY, s) := by
  cases s with
  | mk ri re wb wl =>
    simp only [wtryupgrade, writers_barrier_israised, writers_lock_acquire,
      wrap_arrive, wrap_depart, read_indicator_isempty, writers_lock_release,
      RWLOCK_LOCKED, RWLOCK_UNLOCKED]
    by_cases hb : wb > 0
    · simp [hb]
    · by_cases he : (re + 1) % UINT_FAST32_WRAP = ri <;> cases wl <;>
        cases cas <;> simp [hb, he]

/-- `wdowngrade` in explicit form. -/
theorem wdowngrade_eq (s : LockState) :
    wdowngrade s =
      if s.writers_lock then
        some { s with
          readers_ingress := (s.readers_ingress + 1) % UINT_FAST32_WRAP,
          writers_lock := false }
      else none := by
  cases hw : s.writers_lock <;>
    simp [wdowngrade, wrap_arrive, writers_lock_release,
      RWLOCK_LOCKED, RWLOCK_UNLOCKED, hw]

/-- Every reachable operation-level state satisfies `OpInv`. -/
theorem opReachable_inv {os : OpState} (h : OpReachable os) : OpInv os := by
  induction h with
  | init n => simp [OpInv, initState, heldReaders, CallerHold.none, UINT_FAST32_WRAP]
  | step _ hstep ih =>
    have hr : ((EBUSY : Int) = 0) = False := by norm_num [EBUSY]
    cases hstep with
    | rdlock i c hget hop =>
      rw [wrdlock_eq] at hop
      split at hop
      · simp at hop
      · cases hop
        have hsum := sum_map_set CallerHold.rd _ i { c with rd := c.rd + 1 } c hget
        simp [OpInv, heldReaders, UINT_FAST32_WRAP] at ih ⊢
        simp at hsum
        omega
    | tryrdlock i c r s' hget hop =>
      rw [wtryrdlock_eq] at hop
      split at hop
      · cases hop
        have hsum := sum_map_set CallerHold.rd _ i c c hget
        simp at hsum
        simp [OpInv, heldReaders, hr, UINT_FAST32_WRAP] at ih ⊢
        omega
      · cases hop
        have hsum := sum_map_set CallerHold.rd _ i { c with rd := c.rd + 1 } c hget
        simp [OpInv, heldReaders, UINT_FAST32_WRAP] at ih ⊢
        simp at hsum
        omega
    | rdunlock i c hget hrd =>
      have hsum := sum_map_set CallerHold.rd _ i { c with rd := c.rd - 1 } c hget
      simp [OpInv, heldReaders, wrdunlock, wrap_depart, UINT_FAST32_WRAP] at ih ⊢
      simp at hsum
      omega
    | wrlock i c cas hget hop =>
      rw [wrlock_eq] at hop
      split at hop
      · simp at hop
      · split at hop
        · split at hop
          · cases hop
            have hsum := sum_map_set CallerHold.rd _ i { c with wr := true } c hget
            simp [OpInv, heldReaders, UINT_FAST32_WRAP] at ih ⊢
            simp at hsum
            omega
          · simp at hop
        · simp at hop
    | trywrlock i c cas r s' hget hop =>
      rw [trywrlock_eq] at hop
      split at hop
      · cases hop
        have hsum := sum_map_set CallerHold.rd _ i c c hget
        simp at hsum
        simp [OpInv, heldReaders, hr, UINT_FAST32_WRAP] at ih ⊢
        omega
      · split at hop
        · split at hop
          · cases hop
            have hsum := sum_map_set CallerHold.rd _ i { c with wr := true } c hget
            simp [OpInv, heldReaders, UINT_FAST32_WRAP] at ih ⊢
            simp at hsum
            omega
          · cases hop
            have hsum := sum_map_set CallerHold.rd _ i c c hget
            simp at hsum
            simp [OpInv, heldReaders, hr, UINT_FAST32_WRAP] at ih ⊢
            omega
        · cases hop
          have hsum := sum_map_set CallerHold.rd _ i c c hget
          simp at hsum
          simp [OpInv, heldReaders, hr, UINT_FAST32_WRAP] at ih ⊢
          omega
    | wrunlock i c hget hwr hop =>
      simp only [rwlock_wrunlock, writers_lock_release, RWLOCK_LOCKED,
        RWLOCK_UNLOCKED] at hop
      split at hop
      · cases hop
        have hsum := sum_map_set CallerHold.rd _ i { c with wr := false } c hget
        simp [OpInv, heldReaders, UINT_FAST32_WRAP] at ih ⊢
        simp at hsum
        omega
      · simp at hop
    | tryupgrade i c cas r s' hget hrd hop =>
      rw [wtryupgrade_eq] at hop
      split at hop
      · cases hop
        have hsum := sum_map_set CallerHold.rd _ i c c hget
        simp at hsum
        simp [OpInv, heldReaders, hr, UINT_FAST32_WRAP] at ih ⊢
        omega
      · split at hop
        · split at hop
          · cases hop
            have hsum := sum_map_set CallerHold.rd _ i { c with rd := c.rd - 1, wr := true } c hget
            simp [OpInv, heldReaders, UINT_FAST32_WRAP] at ih ⊢
            simp at hsum
            omega
          · cases hop
            have hsum := sum_map_set CallerHold.rd _ i c c hget
            simp at hsum
            simp [OpInv, heldReaders, hr, UINT_FAST32_WRAP] at ih ⊢
            omega
        · cases hop
          have hsum := sum_map_set CallerHold.rd _ i c c hget
          simp at hsum
          simp [OpInv, heldReaders, hr, UINT_FAST32_WRAP] at ih ⊢
          omega
    | downgrade i c hget hwr hop =>
      rw [wdowngrade_eq] at hop
      split at hop
      · cases hop
        have hsum := sum_map_set CallerHold.rd _ i { c with rd := c.rd + 1, wr := false } c hget
        simp [OpInv, heldReaders, UINT_FAST32_WRAP] at ih ⊢
        simp at hsum
        omega
      · simp at hop

/-- `n` completed `rdlock`/`rdunlock` pairs by a single caller are a
legal operation sequence (every `rdunlock` by the holder); both stored
counters end at `n` modulo the counter width. -/
theorem wrap_cycles_reachable (n : Nat) :
    OpReachable ⟨[⟨0, false⟩],
      { readers_ingress := n % UINT_FAST32_WRAP,
        readers_egress := n % UINT_FAST32_WRAP,
        writers_barrier := 0, writers_lock := false }⟩ := by
  induction n with
  | zero => exact OpReachable.init 1
  | succ k ih =>
    have h1 : OpStep
        ⟨[⟨0, false⟩],
         { readers_ingress := k % UINT_FAST32_WRAP,
           readers_egress := k % UINT_FAST32_WRAP,
           writers_barrier := 0, writers_lock := false }⟩
        ⟨[⟨1, false⟩],
         { readers_ingress := (k % UINT_FAST32_WRAP + 1) % UINT_FAST32_WRAP,
           readers_egress := k % UINT_FAST32_WRAP,
           writers_barrier := 0, writers_lock := false }⟩ := by
      refine OpStep.rdlock 0 ⟨0, false⟩ rfl ?_
      rw [wrdlock_eq]
      simp
    have h2 : OpStep
        ⟨[⟨1, false⟩],
         { readers_ingress := (k % UINT_FAST32_WRAP + 1) % UINT_FAST32_WRAP,
           readers_egress := k % UINT_FAST32_WRAP,
           writers_barrier := 0, writers_lock := false }⟩
        ⟨[⟨0, false⟩],
         { readers_ingress := (k % UINT_FAST32_WRAP + 1) % UINT_FAST32_WRAP,
           readers_egress := (k % UINT_FAST32_WRAP + 1) % UINT_FAST32_WRAP,
           writers_barrier := 0, writers_lock := false }⟩ :=
      OpStep.rdunlock 0 ⟨1, false⟩ rfl (by decide)
    have h3 := OpReachable.step (OpReachable.step ih h1) h2
    have hmod : (k % UINT_FAST32_WRAP + 1) % UINT_FAST32_WRAP =
        (k + 1) % UINT_FAST32_WRAP := Nat.mod_add_mod k UINT_FAST32_WRAP 1
    rw [hmod] at h3
    exact h3

/-- **C2 counterexample**: the monotone reader counters wrap at the
`uint_fast32_t` width: after `2^32 - 1` completed `rdlock`/`rdunlock`
pairs (each release by the holder) followed by one more `rdlock`, the
lock reaches a state with `readers_ingress = 0` (wrapped) and
`readers_egress = 2^32 - 1`, refuting
`readers_egress ≤ readers_ingress`. -/
theorem egress_le_ingress_counterexample :
    OpReachable wrapBadState ∧
    ¬(wrapBadState.lock.readers_egress ≤ wrapBadState.lock.readers_ingress) := by
  constructor
  · exact OpReachable.step (wrap_cycles_reachable 4294967295)
      (OpStep.rdlock 0 ⟨0, false⟩ rfl (by decide))
  · decide

/-- **C2 (amended)**: in every state reachable from the initialized
state by a sequence of operations in which `rdunlock`, `wrunlock`,
`try_upgrade` and `downgrade` are only called by a caller holding the
corresponding access, the stored ingress counter equals the stored
egress counter plus the number of read credentials held, modulo the
2^32 counter width; the read-indicator-empty condition
(`readers_egress = readers_ingress`) holds exactly when the number of
held read credentials is a multiple of 2^32 — hence, whenever fewer
than 2^32 read credentials are outstanding, exactly when no caller
holds shared access.  The pointwise `readers_egress ≤ readers_ingress`
does not survive wraparound (`egress_le_ingress_counterexample`). -/
theorem wrap_read_indicator_no_reader (os : OpState) (h : OpReachable os) :
    os.lock.readers_ingress =
      (os.lock.readers_egress + heldReaders os.holds) % UINT_FAST32_WRAP ∧
    (os.lock.readers_egress = os.lock.readers_ingress ↔
      heldReaders os.holds % UINT_FAST32_WRAP = 0) ∧
    (heldReaders os.holds < UINT_FAST32_WRAP →
      (os.lock.readers_egress = os.lock.readers_ingress ↔
        ∀ c ∈ os.holds, c.rd = 0)) := by
  obtain ⟨h1, h2, h3⟩ := opReachable_inv h
  refine ⟨h1, ?_, ?_⟩
  · rw [h1]
    simp only [UINT_FAST32_WRAP] at h2 ⊢
    omega
  · intro hlt
    rw [← heldReaders_eq_zero_iff, h1]
    simp only [UINT_FAST32_WRAP] at h2 hlt ⊢
    omega

/-- Witness for `wrap_read_indicator_no_reader` at a concrete reachable
state: two callers, the first holding one read credential after a
completed `rdlock`. -/
theorem wrap_read_indicator_no_reader_witness :
    opWitnessState.lock.readers_ingress =
      (opWitnessState.lock.readers_egress +
        heldReaders opWitnessState.holds) % UINT_FAST32_WRAP ∧
    (opWitnessState.lock.readers_egress = opWitnessState.lock.readers_ingress ↔
      heldReaders opWitnessState.holds % UINT_FAST32_WRAP = 0) ∧
    (opWitnessState.lock.readers_egress = opWitnessState.lock.readers_ingress ↔
      ∀ c ∈ opWitnessState.holds, c.rd = 0) := by
  have h := wrap_read_indicator_no_reader opWitnessState
    (OpReachable.step (OpReachable.init 2)
      (OpStep.rdlock 0 CallerHold.none rfl (by decide)))
  exact ⟨h.1, h.2.1, h.2.2 (by decide)⟩

/-- A successful `run` only visits reachable configurations. -/
theorem run_reachable {c : Config} (h : Reachable c) :
    ∀ {sched : List (Nat × Act)} {c' : Config}, run c sched = some c' →
      Reachable c' := by
  intro sched
  induction sched generalizing c with
  | nil => intro c' hr; simp [run] at hr; exact hr ▸ h
  | cons ia rest ih =>
    intro c' hr
    obtain ⟨i, a⟩ := ia
    simp only [run] at hr
    split at hr
    · next c'' hc =>
      exact ih (Reachable.step h ⟨i, a, hc⟩) hr
    · exact absurd hr (by simp)

/-- Updating entry `i` of a list changes a `countP` by the difference
between the new and the old entry. -/
theorem countP_set_of_get {α : Type} (p : α → Bool) :
    ∀ (l : List α) (i : Nat) (a b : α), l.get? i = some b →
      (l.set i a).countP p + (if p b then 1 else 0) =
        l.countP p + (if p a then 1 else 0) := by
  intro l
  induction l with
  | nil => intro i a b h; simp at h
  | cons x xs ih =>
    intro i a b h
    cases i with
    | zero =>
      simp only [List.get?] at h
      cases h
      simp only [List.set, List.countP_cons]
      omega
    | succ j =>
      simp only [List.get?] at h
      have hx := ih j a b h
      simp only [List.set, List.countP_cons]
      omega

/-- Invoking an operation does not change writer-region membership: the
entry phases reachable from `idle h` are in the region iff `idle h`
is. -/
theorem canInvoke_region (h : Hold) (q : Phase) (hc : canInvoke h q = true) :
    inWriterRegion q = inWriterRegion (.idle h) := by
  cases h <;> cases q <;> simp_all [canInvoke, inWriterRegion]

/-- Each atomic instruction is neutral for the writer flag (flag and
region membership unchanged), a successful acquisition (flag
`false → true`, the thread enters the region), or a release (flag
`true → false`, the thread leaves the region). -/
theorem threadStep_region (p : Phase) (s : LockState) (cas : Bool)
    (p' : Phase) (s' : LockState) (h : threadStep p s cas = some (p', s')) :
    (s'.writers_lock = s.writers_lock ∧ inWriterRegion p' = inWriterRegion p) ∨
    (s.writers_lock = false ∧ s'.writers_lock = true ∧
      inWriterRegion p = false ∧ inWriterRegion p' = true) ∨
    (s.writers_lock = true ∧ s'.writers_lock = false ∧
      inWriterRegion p = true ∧ inWriterRegion p' = false) := by
  cases p <;> simp only [threadStep] at h
  case idle g => exact absurd h (by simp)
  case rdArrive b cnt =>
    simp only [Option.some_inj, Prod.mk.injEq] at h
    obtain ⟨rfl, rfl⟩ := h
    exact Or.inl ⟨rfl, rfl⟩
  case rdCheck b cnt =>
    split at h
    · simp only [Option.some_inj, Prod.mk.injEq] at h
      obtain ⟨rfl, rfl⟩ := h
      exact Or.inl ⟨rfl, rfl⟩
    · split at h
      · simp only [Option.some_inj, Prod.mk.injEq] at h
        obtain ⟨rfl, rfl⟩ := h
        exact Or.inl ⟨rfl, rfl⟩
      · simp only [Option.some_inj, Prod.mk.injEq] at h
        obtain ⟨rfl, rfl⟩ := h
        exact Or.inl ⟨rfl, rfl⟩
  case rdDepart b cnt =>
    simp only [Option.some_inj, Prod.mk.injEq] at h
    obtain ⟨rfl, rfl⟩ := h
    exact Or.inl ⟨rfl, rfl⟩
  case rdSpin b cnt =>
    split at h
    · simp only [Option.some_inj, Prod.mk.injEq] at h
      obtain ⟨rfl, rfl⟩ := h
      exact Or.inl ⟨rfl, rfl⟩
    · simp only [Option.some_inj, Prod.mk.injEq] at h
      obtain ⟨rfl, rfl⟩ := h
      exact Or.inl ⟨rfl, rfl⟩
  case rdPatience b cnt =>
    split at h
    · simp only [Option.some_inj, Prod.mk.injEq] at h
      obtain ⟨rfl, rfl⟩ := h
      exact Or.inl ⟨rfl, rfl⟩
    · simp only [Option.some_inj, Prod.mk.injEq] at h
      obtain ⟨rfl, rfl⟩ := h
      exact Or.inl ⟨rfl, rfl⟩
  case rdLower =>
    simp only [Option.some_inj, Prod.mk.injEq] at h
    obtain ⟨rfl, rfl⟩ := h
    exact Or.inl ⟨rfl, rfl⟩
  case trdArrive =>
    simp only [Option.some_inj, Prod.mk.injEq] at h
    obtain ⟨rfl, rfl⟩ := h
    exact Or.inl ⟨rfl, rfl⟩
  case trdCheck =>
    split at h
    · simp only [Option.some_inj, Prod.mk.injEq] at h
      obtain ⟨rfl, rfl⟩ := h
      exact Or.inl ⟨rfl, rfl⟩
    · simp only [Option.some_inj, Prod.mk.injEq] at h
      obtain ⟨rfl, rfl⟩ := h
      exact Or.inl ⟨rfl, rfl⟩
  case trdDepart =>
    simp only [Option.some_inj, Prod.mk.injEq] at h
    obtain ⟨rfl, rfl⟩ := h
    exact Or.inl ⟨rfl, rfl⟩
  case rduDepart =>
    simp only [Option.some_inj, Prod.mk.injEq] at h
    obtain ⟨rfl, rfl⟩ := h
    exact Or.inl ⟨rfl, rfl⟩
  case wrBarrier =>
    split at h
    · simp only [Option.some_inj, Prod.mk.injEq] at h
      obtain ⟨rfl, rfl⟩ := h
      exact Or.inl ⟨rfl, rfl⟩
    · simp only [Option.some_inj, Prod.mk.injEq] at h
      obtain ⟨rfl, rfl⟩ := h
      exact Or.inl ⟨rfl, rfl⟩
  case wrCas =>
    split at h
    · next s₁ heq =>
      simp only [Option.some_inj, Prod.mk.injEq] at h
      obtain ⟨rfl, rfl⟩ := h
      rw [writers_lock_acquire] at heq
      split at heq
      · next hc =>
        simp only [Prod.mk.injEq] at heq
        obtain ⟨-, rfl⟩ := heq
        simp only [Bool.and_eq_true, decide_eq_true_eq] at hc
        exact Or.inr (Or.inl ⟨hc.1, rfl, rfl, rfl⟩)
      · simp at heq
    · next s₁ heq =>
      simp only [Option.some_inj, Prod.mk.injEq] at h
      obtain ⟨rfl, rfl⟩ := h
      rw [writers_lock_acquire] at heq
      split at heq
      · simp at heq
      · next hc =>
        simp only [Prod.mk.injEq] at heq
        obtain ⟨-, rfl⟩ := heq
        exact Or.inl ⟨rfl, rfl⟩
  case wrWaitE =>
    simp only [Option.some_inj, Prod.mk.injEq] at h
    obtain ⟨rfl, rfl⟩ := h
    exact Or.inl ⟨rfl, rfl⟩
  case wrWaitI e =>
    split at h
    · simp only [Option.some_inj, Prod.mk.injEq] at h
      obtain ⟨rfl, rfl⟩ := h
      exact Or.inl ⟨rfl, rfl⟩
    · simp only [Option.some_inj, Prod.mk.injEq] at h
      obtain ⟨rfl, rfl⟩ := h
      exact Or.inl ⟨rfl, rfl⟩
  case wruRelease =>
    rw [writers_lock_release] at h
    split at h
    · next hc =>
      simp only [Option.map_some', Option.some_inj, Prod.mk.injEq] at h
      obtain ⟨rfl, rfl⟩ := h
      exact Or.inr (Or.inr ⟨hc, rfl, rfl, rfl⟩)
    · simp at h
  case twrBarrier =>
    split at h
    · simp only [Option.some_inj, Prod.mk.injEq] at h
      obtain ⟨rfl, rfl⟩ := h
      exact Or.inl ⟨rfl, rfl⟩
    · simp only [Option.some_inj, Prod.mk.injEq] at h
      obtain ⟨rfl, rfl⟩ := h
      exact Or.inl ⟨rfl, rfl⟩
  case twrCas =>
    split at h
    · next s₁ heq =>
      simp only [Option.some_inj, Prod.mk.injEq] at h
      obtain ⟨rfl, rfl⟩ := h
      rw [writers_lock_acquire] at heq
      split at heq
      · next hc =>
        simp only [Prod.mk.injEq] at heq
        obtain ⟨-, rfl⟩ := heq
        simp only [Bool.and_eq_true, decide_eq_true_eq] at hc
        exact Or.inr (Or.inl ⟨hc.1, rfl, rfl, rfl⟩)
      · simp at heq
    · next s₁ heq =>
      simp only [Option.some_inj, Prod.mk.injEq] at h
      obtain ⟨rfl, rfl⟩ := h
      rw [writers_lock_acquire] at heq
      split at heq
      · simp at heq
      · next hc =>
        simp only [Prod.mk.injEq] at heq
        obtain ⟨-, rfl⟩ := heq
        exact Or.inl ⟨rfl, rfl⟩
  case twrEmptyE =>
    simp only [Option.some_inj, Prod.mk.injEq] at h
    obtain ⟨rfl, rfl⟩ := h
    exact Or.inl ⟨rfl, rfl⟩
  case twrEmptyI e =>
    split at h
    · simp only [Option.some_inj, Prod.mk.injEq] at h
      obtain ⟨rfl, rfl⟩ := h
      exact Or.inl ⟨rfl, rfl⟩
    · simp only [Option.some_inj, Prod.mk.injEq] at h
      obtain ⟨rfl, rfl⟩ := h
      exact Or.inl ⟨rfl, rfl⟩
  case twrRelease =>
    rw [writers_lock_release] at h
    split at h
    · next hc =>
      simp only [Option.map_some', Option.some_inj, Prod.mk.injEq] at h
      obtain ⟨rfl, rfl⟩ := h
      exact Or.inr (Or.inr ⟨hc, rfl, rfl, rfl⟩)
    · simp at h
  case tuBarrier =>
    split at h
    · simp only [Option.some_inj, Prod.mk.injEq] at h
      obtain ⟨rfl, rfl⟩ := h
      exact Or.inl ⟨rfl, rfl⟩
    · simp only [Option.some_inj, Prod.mk.injEq] at h
      obtain ⟨rfl, rfl⟩ := h
      exact Or.inl ⟨rfl, rfl⟩
  case tuCas =>
    split at h
    · next s₁ heq =>
      simp only [Option.some_inj, Prod.mk.injEq] at h
      obtain ⟨rfl, rfl⟩ := h
      rw [writers_lock_acquire] at heq
      split at heq
      · next hc =>
        simp only [Prod.mk.injEq] at heq
        obtain ⟨-, rfl⟩ := heq
        simp only [Bool.and_eq_true, decide_eq_true_eq] at hc
        exact Or.inr (Or.inl ⟨hc.1, rfl, rfl, rfl⟩)
      · simp at heq
    · next s₁ heq =>
      simp only [Option.some_inj, Prod.mk.injEq] at h
      obtain ⟨rfl, rfl⟩ := h
      rw [writers_lock_acquire] at heq
      split at heq
      · simp at heq
      · next hc =>
        simp only [Prod.mk.injEq] at heq
        obtain ⟨-, rfl⟩ := heq
        exact Or.inl ⟨rfl, rfl⟩
  case tuDepart =>
    simp only [Option.some_inj, Prod.mk.injEq] at h
    obtain ⟨rfl, rfl⟩ := h
    exact Or.inl ⟨rfl, rfl⟩
  case tuEmptyE =>
    simp only [Option.some_inj, Prod.mk.injEq] at h
    obtain ⟨rfl, rfl⟩ := h
    exact Or.inl ⟨rfl, rfl⟩
  case tuEmptyI e =>
    split at h
    · simp only [Option.some_inj, Prod.mk.injEq] at h
      obtain ⟨rfl, rfl⟩ := h
      exact Or.inl ⟨rfl, rfl⟩
    · simp only [Option.some_inj, Prod.mk.injEq] at h
      obtain ⟨rfl, rfl⟩ := h
      exact Or.inl ⟨rfl, rfl⟩
  case tuArrive =>
    simp only [Option.some_inj, Prod.mk.injEq] at h
    obtain ⟨rfl, rfl⟩ := h
    exact Or.inl ⟨rfl, rfl⟩
  case tuRelease =>
    rw [writers_lock_release] at h
    split at h
    · next hc =>
      simp only [Option.map_some', Option.some_inj, Prod.mk.injEq] at h
      obtain ⟨rfl, rfl⟩ := h
      exact Or.inr (Or.inr ⟨hc, rfl, rfl, rfl⟩)
    · simp at h
  case dgArrive =>
    simp only [Option.some_inj, Prod.mk.injEq] at h
    obtain ⟨rfl, rfl⟩ := h
    exact Or.inl ⟨rfl, rfl⟩
  case dgRelease =>
    rw [writers_lock_release] at h
    split at h
    · next hc =>
      simp only [Option.map_some', Option.some_inj, Prod.mk.injEq] at h
      obtain ⟨rfl, rfl⟩ := h
      exact Or.inr (Or.inr ⟨hc, rfl, rfl, rfl⟩)
    · simp at h

/-- `countP` of a constant list whose element fails the predicate. -/
theorem countP_replicate_false {α : Type} (p : α → Bool) (a : α)
    (hp : p a = false) : ∀ n, (List.replicate n a).countP p = 0 := by
  intro n
  induction n with
  | zero => rfl
  | succ k ih => simp [List.replicate, List.countP_cons, hp, ih]

/-- Every reachable configuration satisfies the writer-flag
invariant. -/
theorem winv_reachable {c : Config} (h : Reachable c) : WInv c := by
  induction h with
  | init n =>
    show (List.replicate n (Phase.idle Hold.hnone)).countP inWriterRegion =
      if initState.writers_lock then 1 else 0
    rw [countP_replicate_false inWriterRegion (.idle .hnone) rfl]
    rfl
  | step hr hs ih =>
    obtain ⟨i, a, ha⟩ := hs
    rename_i c₀ c'
    cases hget : c₀.threads.get? i with
    | none =>
      cases a <;> (simp only [doAct] at ha; rw [hget] at ha; simp at ha)
    | some p =>
      cases a with
      | invoke q =>
        cases p
        case idle g =>
          simp only [doAct, hget] at ha
          split at ha
          · next hcan =>
            simp only [Option.some_inj] at ha
            subst ha
            have hcount := countP_set_of_get inWriterRegion c₀.threads i q (.idle g) hget
            have hreg := canInvoke_region g q hcan
            simp only [WInv] at ih ⊢
            rw [hreg] at hcount
            omega
          · exact absurd ha (by simp)
        all_goals (simp only [doAct] at ha; rw [hget] at ha; simp at ha)
      | exec cas =>
        simp only [doAct, hget] at ha
        cases hts : threadStep p c₀.lock cas with
        | none => rw [hts] at ha; simp at ha
        | some q =>
          obtain ⟨p', s'⟩ := q
          rw [hts] at ha
          simp only [Option.map_some', Option.some_inj] at ha
          subst ha
          have hreg := threadStep_region p c₀.lock cas p' s' hts
          have hcount := countP_set_of_get inWriterRegion c₀.threads i p' p hget
          simp only [WInv] at ih ⊢
          rcases hreg with ⟨hf, hw⟩ | ⟨hf0, hf1, hw0, hw1⟩ | ⟨hf0, hf1, hw0, hw1⟩
          · rw [hw] at hcount
            rw [hf]
            omega
          · have h1 : (c₀.threads.set i p').countP inWriterRegion =
                c₀.threads.countP inWriterRegion + 1 := by
              rw [hw0, hw1] at hcount
              simpa using hcount
            have h2 : c₀.threads.countP inWriterRegion = 0 := by
              rw [hf0] at ih
              simpa using ih
            rw [hf1]
            simp [h1, h2]
          · have h1 : (c₀.threads.set i p').countP inWriterRegion + 1 =
                c₀.threads.countP inWriterRegion := by
              rw [hw0, hw1] at hcount
              simpa using hcount
            have h2 : c₀.threads.countP inWriterRegion = 1 := by
              rw [hf0] at ih
              simpa using ih
            rw [hf1, if_neg (by simp : ¬((false : Bool) = true))]
            omega

/-- Setting index `i` does not change other entries. -/
theorem get?_set_ne {α : Type} :
    ∀ (l : List α) (i j : Nat) (a : α), i ≠ j →
      (l.set i a).get? j = l.get? j := by
  intro l
  induction l with
  | nil => intro i j a _; simp
  | cons x xs ih =>
    intro i j a hij
    cases i with
    | zero =>
      cases j with
      | zero => exact absurd rfl hij
      | succ j' => simp [List.set]
    | succ i' =>
      cases j with
      | zero => simp [List.set]
      | succ j' =>
        simp only [List.set, List.get?]
        exact ih i' j' a (fun he => hij (by rw [he]))

/-- Setting an in-bounds index `i` makes entry `i` the new value. -/
theorem get?_set_self {α : Type} :
    ∀ (l : List α) (i : Nat) (a b : α), l.get? i = some b →
      (l.set i a).get? i = some a := by
  intro l
  induction l with
  | nil => intro i a b h; simp at h
  | cons x xs ih =>
    intro i a b h
    cases i with
    | zero => simp [List.set]
    | succ i' =>
      simp only [List.get?] at h
      simp only [List.set, List.get?]
      exact ih i' a b h

/-- An entry satisfying the predicate forces a positive count. -/
theorem countP_pos_of_get {α : Type} (p : α → Bool) :
    ∀ (l : List α) (i : Nat) (a : α), l.get? i = some a → p a = true →
      1 ≤ l.countP p := by
  intro l
  induction l with
  | nil => intro i a h; simp at h
  | cons x xs ih =>
    intro i a h hpa
    cases i with
    | zero =>
      simp only [List.get?] at h
      cases h
      simp [List.countP_cons, hpa]
    | succ i' =>
      simp only [List.get?] at h
      have := ih i' a h hpa
      simp only [List.countP_cons]
      omega

/-- Two distinct entries satisfying the predicate force a count of at
least two. -/
theorem countP_ge_two {α : Type} (p : α → Bool) :
    ∀ (l : List α) (i j : Nat) (a b : α), i ≠ j →
      l.get? i = some a → l.get? j = some b →
      p a = true → p b = true → 2 ≤ l.countP p := by
  intro l
  induction l with
  | nil => intro i j a b _ hi; simp at hi
  | cons x xs ih =>
    intro i j a b hij hi hj hpa hpb
    cases i with
    | zero =>
      cases j with
      | zero => exact absurd rfl hij
      | succ j' =>
        simp only [List.get?] at hi hj
        cases hi
        have h1 := countP_pos_of_get p xs j' b hj hpb
        rw [List.countP_cons, hpa, if_pos rfl]
        omega
    | succ i' =>
      cases j with
      | zero =>
        simp only [List.get?] at hi hj
        cases hj
        have h1 := countP_pos_of_get p xs i' a hi hpa
        rw [List.countP_cons, hpb, if_pos rfl]
        omega
      | succ j' =>
        simp only [List.get?] at hi hj
        have h2 := ih i' j' a b (fun he => hij (by rw [he])) hi hj hpa hpb
        simp only [List.countP_cons]
        omega

/-- A step only changes the phase of the stepping thread. -/
theorem doAct_other_threads {c c' : Config} {i : Nat} {a : Act}
    (h : doAct c i a = some c') :
    ∀ j, j ≠ i → c'.threads.get? j = c.threads.get? j := by
  cases hget : c.threads.get? i with
  | none => cases a <;> (simp only [doAct] at h; rw [hget] at h; simp at h)
  | some p =>
    cases a with
    | invoke q =>
      cases p
      case idle g =>
        simp only [doAct, hget] at h
        split at h
        · simp only [Option.some_inj] at h
          subst h
          intro j hj
          exact get?_set_ne c.threads i j q (fun he => hj he.symm)
        · exact absurd h (by simp)
      all_goals (simp only [doAct] at h; rw [hget] at h; simp at h)
    | exec cas =>
      simp only [doAct, hget] at h
      cases hts : threadStep p c.lock cas with
      | none => rw [hts] at h; simp at h
      | some q =>
        rw [hts] at h
        simp only [Option.map_some', Option.some_inj] at h
        subst h
        intro j hj
        exact get?_set_ne c.threads i j q.1 (fun he => hj he.symm)

/-- Inversion for an `invoke` step: the thread was idle, the invoked
entry was allowed, and only its phase changed. -/
theorem doAct_invoke {c c' : Config} {i : Nat} {q : Phase}
    (h : doAct c i (.invoke q) = some c') :
    ∃ g, c.threads.get? i = some (.idle g) ∧ canInvoke g q = true ∧
      c' = ⟨c.threads.set i q, c.lock⟩ := by
  cases hget : c.threads.get? i with
  | none => simp only [doAct] at h; rw [hget] at h; simp at h
  | some p =>
    cases p
    case idle g =>
      simp only [doAct, hget] at h
      split at h
      · next hcan =>
        simp only [Option.some_inj] at h
        exact ⟨g, rfl, hcan, h.symm⟩
      · exact absurd h (by simp)
    all_goals (simp only [doAct] at h; rw [hget] at h; simp at h)

/-- In a reachable configuration, at most one thread is in the writer
region. -/
theorem region_unique {c : Config} (hreach : Reachable c) :
    ∀ t u pt pu, c.threads.get? t = some pt → inWriterRegion pt = true →
      c.threads.get? u = some pu → inWriterRegion pu = true → t = u := by
  intro t u pt pu ht hpt hu hpu
  by_contra hne
  have hinv := winv_reachable hreach
  have h2 := countP_ge_two inWriterRegion c.threads t u pt pu hne ht hu hpt hpu
  unfold WInv at hinv
  split at hinv <;> omega

/-- Across one step, a thread in the writer region stays the unique
region holder: any thread in the region after the step is the thread
that was in it before. -/
theorem region_persists {c c' : Config} (hreach : Reachable c)
    (hstep : Step c c') :
    ∀ u pu t pt, c.threads.get? u = some pu → inWriterRegion pu = true →
      c'.threads.get? t = some pt → inWriterRegion pt = true → t = u := by
  intro u pu t pt hu hpu ht hpt
  have hreach' := Reachable.step hreach hstep
  obtain ⟨i, a, ha⟩ := hstep
  by_cases hiu : i = u
  · subst hiu
    cases a with
    | invoke q =>
      obtain ⟨g, hidle, hcan, rfl⟩ := doAct_invoke ha
      rw [hu] at hidle
      have hpu' : pu = .idle g := by injection hidle
      subst hpu'
      have hq : inWriterRegion q = true := by
        rw [canInvoke_region g q hcan]
        exact hpu
      have hu' : (c.threads.set i q).get? i = some q :=
        get?_set_self c.threads i q (.idle g) hu
      exact region_unique hreach' t i pt q ht hpt hu' hq
    | exec cas =>
      simp only [doAct, hu] at ha
      cases hts : threadStep pu c.lock cas with
      | none => rw [hts] at ha; simp at ha
      | some q =>
        obtain ⟨p', s'⟩ := q
        rw [hts] at ha
        simp only [Option.map_some', Option.some_inj] at ha
        subst ha
        rcases threadStep_region pu c.lock cas p' s' hts with
          ⟨hf, hw⟩ | ⟨hf0, hf1, hw0, hw1⟩ | ⟨hf0, hf1, hw0, hw1⟩
        · have hu' : (c.threads.set i p').get? i = some p' :=
            get?_set_self c.threads i p' pu hu
          exact region_unique hreach' t i pt p' ht hpt hu' (hw.trans hpu)
        · rw [hw0] at hpu
          exact absurd hpu (by simp)
        · -- the stepping thread released: nobody is in the region after
          have hinv' := winv_reachable hreach'
          unfold WInv at hinv'
          rw [hf1] at hinv'
          simp only [if_neg (by simp : ¬((false : Bool) = true))] at hinv'
          have hpos := countP_pos_of_get inWriterRegion
            (c.threads.set i p') t pt ht hpt
          omega
  · have hu' : c'.threads.get? u = some pu := by
      rw [doAct_other_threads ha u (fun he => hiu he.symm)]
      exact hu
    exact region_unique hreach' t u pt pu ht hpt hu' hpu

/-- **C1**: for all interleavings of concurrent operations on a single
initialized lock, at most one thread holds write access at any time:
in every reachable configuration at most one thread is in the writer
region (between a successful `wrlock`/`try_wrlock`/`try_upgrade` flag
CAS and the matching release), and across any step, any thread holding
write access afterwards is the thread that already held it — no other
thread's write acquisition completes while one thread is in the
region. -/
theorem writer_mutual_exclusion :
    (∀ c : Config, Reachable c → ∀ t u pt pu,
      c.threads.get? t = some pt → inWriterRegion pt = true →
      c.threads.get? u = some pu → inWriterRegion pu = true → t = u) ∧
    (∀ c c' : Config, Reachable c → Step c c' →
      ∀ u pu t pt, c.threads.get? u = some pu → inWriterRegion pu = true →
        c'.threads.get? t = some pt → inWriterRegion pt = true → t = u) :=
  ⟨fun _ h => region_unique h, fun _ _ h hs => region_persists h hs⟩

/-- Witness for `writer_mutual_exclusion` at a concrete reachable
configuration and step. -/
theorem writer_mutual_exclusion_witness : (0 : Nat) = 0 ∧ (0 : Nat) = 0 := by
  have hrun : run (initConfig 1) mutexWitnessSched = some mutexWitnessConfig := by
    decide
  have hreach : Reachable mutexWitnessConfig :=
    run_reachable (Reachable.init 1) hrun
  refine ⟨writer_mutual_exclusion.1 mutexWitnessConfig hreach 0 0
      (.idle .hwr) (.idle .hwr) rfl rfl rfl rfl, ?_⟩
  exact writer_mutual_exclusion.2 mutexWitnessConfig
    ⟨[.wruRelease], ⟨0, 0, 0, true⟩⟩ hreach
    ⟨0, .invoke .wruRelease, by decide⟩ 0 (.idle .hwr) 0 .wruRelease
    rfl rfl rfl rfl

/-- **C6 counterexample**: a reachable interleaving in which, after the
barrier has become positive and before it returns to zero, a `wrlock`
acquisition completes: from `c6Mid` (barrier = 1, raised by starved
reader 0) writer 2 successfully CASes the flag and finishes `wrlock`,
with the barrier equal to 1 in every intermediate configuration.  This
refutes the claim that no new `wrlock` acquisition completes while the
barrier is positive. -/
theorem barrier_gating_counterexample :
    Reachable c6Mid ∧
    c6Mid.lock.writers_barrier = 1 ∧
    c6Mid.threads.get? 2 = some Phase.wrCas ∧
    doAct c6Mid 2 (Act.exec true) = some c6A ∧
    c6A.lock.writers_barrier = 1 ∧ c6A.lock.writers_lock = true ∧
    doAct c6A 2 (Act.exec true) = some c6B ∧
    c6B.lock.writers_barrier = 1 ∧
    doAct c6B 2 (Act.exec true) = some c6C ∧
    c6C.lock.writers_barrier = 1 ∧
    c6C.threads.get? 2 = some (Phase.idle Hold.hwr) ∧
    c6C.lock.writers_lock = true := by
  have hrun : run (initConfig 3) c6sched = some c6Mid := by decide
  exact ⟨run_reachable (Reachable.init 3) hrun, rfl, rfl, by decide, rfl, rfl,
    by decide, rfl, by decide, rfl, rfl, rfl⟩

/-- **C6 (amended)**: while `writers_barrier > 0`, a `wrlock` that
performs its barrier check does not pass it (the thread stays at the
check, line 218), and a `try_wrlock` performing its check immediately
returns busy with the state unchanged (line 238); a writer that passed
the check while the barrier was zero may however still complete its
acquisition after the barrier is raised
(`barrier_gating_counterexample`). -/
theorem barrier_gates_check (s : LockState) (cas : Bool)
    (h : s.writers_barrier > 0) :
    threadStep Phase.wrBarrier s cas = some (Phase.wrBarrier, s) ∧
    threadStep Phase.twrBarrier s cas = some (Phase.idle Hold.hnone, s) := by
  unfold threadStep writers_barrier_israised
  simp [h]

/-- Witness for `barrier_gates_check` at a concrete raised-barrier
state. -/
theorem barrier_gates_check_witness :
    threadStep Phase.wrBarrier ⟨0, 0, 1, false⟩ true =
      some (Phase.wrBarrier, ⟨0, 0, 1, false⟩) ∧
    threadStep Phase.twrBarrier ⟨0, 0, 1, false⟩ true =
      some (Phase.idle Hold.hnone, ⟨0, 0, 1, false⟩) :=
  barrier_gates_check ⟨0, 0, 1, false⟩ true (by decide)

/-- **C3 counterexample**: `rwlock_tryrdlock` on a write-locked lock
returns busy yet does not leave the four fields unchanged — both read
counters are incremented (arrive then depart, lines 161-164). -/
theorem try_busy_counterexample :
    (rwlock_tryrdlock ⟨0, 0, 0, true⟩).1 = EBUSY ∧
    (rwlock_tryrdlock ⟨0, 0, 0, true⟩).2 ≠ (⟨0, 0, 0, true⟩ : LockState) ∧
    (rwlock_tryrdlock ⟨0, 0, 0, true⟩).2.readers_ingress = 1 ∧
    (rwlock_tryrdlock ⟨0, 0, 0, true⟩).2.readers_egress = 1 := by
  decide

/-- **C3 (amended)**: when a non-blocking operation returns busy the
operation did not take effect observably: `writers_lock` and
`writers_barrier` are unchanged and the read-indicator difference
`readers_ingress - readers_egress` is preserved; `try_wrlock` leaves
the state exactly unchanged, while `try_rdlock` and `try_upgrade` may
increment `readers_ingress` and `readers_egress` by the same amount. -/
theorem try_busy_observable (cas : Bool) (s : LockState) :
    ((rwlock_tryrdlock s).1 = EBUSY →
      ((rwlock_tryrdlock s).2.writers_lock = s.writers_lock ∧
       (rwlock_tryrdlock s).2.writers_barrier = s.writers_barrier ∧
       (rwlock_tryrdlock s).2.readers_ingress + s.readers_egress =
         s.readers_ingress + (rwlock_tryrdlock s).2.readers_egress)) ∧
    (∀ r s', rwlock_trywrlock cas s = some (r, s') → r = EBUSY → s' = s) ∧
    (∀ r s', rwlock_tryupgrade cas s = some (r, s') → r = EBUSY →
      (s'.writers_lock = s.writers_lock ∧
       s'.writers_barrier = s.writers_barrier ∧
       s'.readers_ingress + s.readers_egress =
         s.readers_ingress + s'.readers_egress)) := by
  refine ⟨?_, ?_, ?_⟩
  · rw [tryrdlock_eq]
    split
    · intro _
      refine ⟨rfl, rfl, ?_⟩
      show s.readers_ingress + 1 + s.readers_egress =
        s.readers_ingress + (s.readers_egress + 1)
      omega
    · intro hr
      exact absurd hr (by norm_num [EBUSY])
  · intro r s' hop hbusy
    rw [trywrlock_eq] at hop
    split at hop
    · simp only [Option.some_inj, Prod.mk.injEq] at hop
      exact hop.2.symm
    · split at hop
      · split at hop
        · simp only [Option.some_inj, Prod.mk.injEq] at hop
          rw [← hop.1] at hbusy
          exact absurd hbusy (by norm_num [EBUSY])
        · simp only [Option.some_inj, Prod.mk.injEq] at hop
          exact hop.2.symm
      · simp only [Option.some_inj, Prod.mk.injEq] at hop
        exact hop.2.symm
  · intro r s' hop hbusy
    rw [tryupgrade_eq] at hop
    split at hop
    · simp only [Option.some_inj, Prod.mk.injEq] at hop
      obtain ⟨-, rfl⟩ := hop
      exact ⟨rfl, rfl, rfl⟩
    · split at hop
      · split at hop
        · simp only [Option.some_inj, Prod.mk.injEq] at hop
          rw [← hop.1] at hbusy
          exact absurd hbusy (by norm_num [EBUSY])
        · simp only [Option.some_inj, Prod.mk.injEq] at hop
          obtain ⟨-, rfl⟩ := hop
          refine ⟨rfl, rfl, ?_⟩
          show s.readers_ingress + 1 + s.readers_egress =
            s.readers_ingress + (s.readers_egress + 1)
          omega
      · simp only [Option.some_inj, Prod.mk.injEq] at hop
        obtain ⟨-, rfl⟩ := hop
        exact ⟨rfl, rfl, rfl⟩

/-- Witness for `try_busy_observable` at concrete busy calls of all
three non-blocking operations. -/
theorem try_busy_observable_witness :
    ((rwlock_tryrdlock ⟨0, 0, 0, true⟩).2.writers_lock =
        (⟨0, 0, 0, true⟩ : LockState).writers_lock ∧
      (rwlock_tryrdlock ⟨0, 0, 0, true⟩).2.writers_barrier =
        (⟨0, 0, 0, true⟩ : LockState).writers_barrier ∧
      (rwlock_tryrdlock ⟨0, 0, 0, true⟩).2.readers_ingress +
          (⟨0, 0, 0, true⟩ : LockState).readers_egress =
        (⟨0, 0, 0, true⟩ : LockState).readers_ingress +
          (rwlock_tryrdlock ⟨0, 0, 0, true⟩).2.readers_egress) ∧
    ((⟨1, 0, 0, false⟩ : LockState) = (⟨1, 0, 0, false⟩ : LockState)) ∧
    ((⟨3, 1, 0, false⟩ : LockState).writers_lock =
        (⟨2, 0, 0, false⟩ : LockState).writers_lock ∧
      (⟨3, 1, 0, false⟩ : LockState).writers_barrier =
        (⟨2, 0, 0, false⟩ : LockState).writers_barrier ∧
      (⟨3, 1, 0, false⟩ : LockState).readers_ingress +
          (⟨2, 0, 0, false⟩ : LockState).readers_egress =
        (⟨2, 0, 0, false⟩ : LockState).readers_ingress +
          (⟨3, 1, 0, false⟩ : LockState).readers_egress) :=
  ⟨(try_busy_observable true ⟨0, 0, 0, true⟩).1 (by decide),
   (try_busy_observable true ⟨1, 0, 0, false⟩).2.1 EBUSY ⟨1, 0, 0, false⟩
     (by decide) rfl,
   (try_busy_observable true ⟨2, 0, 0, false⟩).2.2 EBUSY ⟨3, 1, 0, false⟩
     (by decide) rfl⟩

/-- **C4**: a busy `try_upgrade` by a caller holding shared access
leaves the caller holding the read lock exactly as before: the
read-indicator difference is restored, `writers_lock` and
`writers_barrier` are back to their pre-call values, the caller's read
credential is still reflected in the indicator (`egress < ingress`),
and a subsequent `rdunlock` keeps `egress ≤ ingress`. -/
theorem tryupgrade_busy_restores (cas : Bool) (s : LockState)
    (hrd : s.readers_egress < s.readers_ingress) (r : Int) (s' : LockState)
    (hop : rwlock_tryupgrade cas s = some (r, s')) (hbusy : r = EBUSY) :
    s'.readers_ingress + s.readers_egress =
      s.readers_ingress + s'.readers_egress ∧
    s'.writers_lock = s.writers_lock ∧
    s'.writers_barrier = s.writers_barrier ∧
    s'.readers_egress < s'.readers_ingress ∧
    (rwlock_rdunlock s').readers_egress ≤ s'.readers_ingress := by
  rw [tryupgrade_eq] at hop
  split at hop
  · simp only [Option.some_inj, Prod.mk.injEq] at hop
    obtain ⟨-, rfl⟩ := hop
    refine ⟨rfl, rfl, rfl, hrd, ?_⟩
    show s.readers_egress + 1 ≤ s.readers_ingress
    omega
  · split at hop
    · split at hop
      · simp only [Option.some_inj, Prod.mk.injEq] at hop
        rw [← hop.1] at hbusy
        exact absurd hbusy (by norm_num [EBUSY])
      · next hne =>
        simp only [Option.some_inj, Prod.mk.injEq] at hop
        obtain ⟨-, rfl⟩ := hop
        refine ⟨?_, rfl, rfl, ?_, ?_⟩
        · show s.readers_ingress + 1 + s.readers_egress =
            s.readers_ingress + (s.readers_egress + 1)
          omega
        · show s.readers_egress + 1 < s.readers_ingress + 1
          omega
        · show s.readers_egress + 1 + 1 ≤ s.readers_ingress + 1
          omega
    · simp only [Option.some_inj, Prod.mk.injEq] at hop
      obtain ⟨-, rfl⟩ := hop
      refine ⟨rfl, rfl, rfl, hrd, ?_⟩
      show s.readers_egress + 1 ≤ s.readers_ingress
      omega

/-- Witness for `tryupgrade_busy_restores`: a caller holding one of two
read credentials attempts the upgrade; it rolls back. -/
theorem tryupgrade_busy_restores_witness :
    (⟨3, 1, 0, false⟩ : LockState).readers_ingress +
        (⟨2, 0, 0, false⟩ : LockState).readers_egress =
      (⟨2, 0, 0, false⟩ : LockState).readers_ingress +
        (⟨3, 1, 0, false⟩ : LockState).readers_egress ∧
    (⟨3, 1, 0, false⟩ : LockState).writers_lock =
      (⟨2, 0, 0, false⟩ : LockState).writers_lock ∧
    (⟨3, 1, 0, false⟩ : LockState).writers_barrier =
      (⟨2, 0, 0, false⟩ : LockState).writers_barrier ∧
    (⟨3, 1, 0, false⟩ : LockState).readers_egress <
      (⟨3, 1, 0, false⟩ : LockState).readers_ingress ∧
    (rwlock_rdunlock ⟨3, 1, 0, false⟩).readers_egress ≤
      (⟨3, 1, 0, false⟩ : LockState).readers_ingress :=
  tryupgrade_busy_restores true ⟨2, 0, 0, false⟩ (by decide) EBUSY
    ⟨3, 1, 0, false⟩ (by decide) rfl

/-- **C5**: `try_wrlock` succeeds iff the barrier is not raised, the
flag CAS succeeds and the read-indicator is empty immediately after
acquiring the flag; on success the flag is set; on busy the state is
exactly restored (the flag is released if it was acquired); the
counters and the barrier are never modified; and it never spins — every
atomic step of `rwlock_trywrlock` strictly advances the program
counter. -/
theorem trywrlock_spec (cas : Bool) (s : LockState) :
    (∀ r s', rwlock_trywrlock cas s = some (r, s') →
      ((r = 0 ↔ (writers_barrier_israised s = false ∧
        (writers_lock_acquire cas s).1 = true ∧
        read_indicator_isempty (writers_lock_acquire cas s).2 = true)) ∧
       (r = 0 → s'.writers_lock = true) ∧
       (r = EBUSY → s' = s) ∧
       (r = 0 ∨ r = EBUSY) ∧
       s'.readers_ingress = s.readers_ingress ∧
       s'.readers_egress = s.readers_egress ∧
       s'.writers_barrier = s.writers_barrier)) ∧
    (∀ p, isTrywrPhase p = true → ∀ s₂ cas₂ q,
      threadStep p s₂ cas₂ = some q → q.1 ≠ p) := by
  constructor
  · intro r s' hop
    rw [trywrlock_eq] at hop
    split at hop
    · next hb =>
      simp only [Option.some_inj, Prod.mk.injEq] at hop
      obtain ⟨rfl, rfl⟩ := hop
      refine ⟨?_, ?_, fun _ => rfl, Or.inr rfl, rfl, rfl, rfl⟩
      · constructor
        · intro hr
          exact absurd hr (by norm_num [EBUSY])
        · rintro ⟨h1, -, -⟩
          rw [writers_barrier_israised] at h1
          simp at h1
          omega
      · intro hr
        exact absurd hr (by norm_num [EBUSY])
    · next hb =>
      split at hop
      · next hfc =>
        split at hop
        · next he =>
          simp only [Option.some_inj, Prod.mk.injEq] at hop
          obtain ⟨rfl, rfl⟩ := hop
          refine ⟨?_, fun _ => rfl, ?_, Or.inl rfl, rfl, rfl, rfl⟩
          · constructor
            · intro _
              refine ⟨?_, ?_, ?_⟩
              · rw [writers_barrier_israised]
                simp
                omega
              · rw [writers_lock_acquire]
                simp [hfc.1, hfc.2, RWLOCK_UNLOCKED]
              · rw [writers_lock_acquire]
                simp [hfc.1, hfc.2, RWLOCK_UNLOCKED, read_indicator_isempty, he]
            · intro _
              rfl
          · intro hr
            exact absurd hr.symm (by norm_num [EBUSY])
        · next he =>
          simp only [Option.some_inj, Prod.mk.injEq] at hop
          obtain ⟨rfl, rfl⟩ := hop
          refine ⟨?_, ?_, fun _ => rfl, Or.inr rfl, rfl, rfl, rfl⟩
          · constructor
            · intro hr
              exact absurd hr (by norm_num [EBUSY])
            · rintro ⟨-, -, h3⟩
              rw [writers_lock_acquire] at h3
              simp [hfc.1, hfc.2, RWLOCK_UNLOCKED, read_indicator_isempty] at h3
              exact absurd h3 he
          · intro hr
            exact absurd hr (by norm_num [EBUSY])
      · next hfc =>
        simp only [Option.some_inj, Prod.mk.injEq] at hop
        obtain ⟨rfl, rfl⟩ := hop
        refine ⟨?_, ?_, fun _ => rfl, Or.inr rfl, rfl, rfl, rfl⟩
        · constructor
          · intro hr
            exact absurd hr (by norm_num [EBUSY])
          · rintro ⟨-, h2, -⟩
            rw [writers_lock_acquire] at h2
            split at h2
            · next hcond =>
              simp only [Bool.and_eq_true, decide_eq_true_eq] at hcond
              exact absurd ⟨hcond.1, hcond.2⟩ hfc
            · simp at h2
        · intro hr
          exact absurd hr (by norm_num [EBUSY])
  · intro p hp
    cases p <;> simp [isTrywrPhase] at hp
    case twrBarrier =>
      intro s₂ cas₂ q hq
      rw [threadStep] at hq
      split at hq
      · cases hq; simp
      · cases hq; simp
    case twrCas =>
      intro s₂ cas₂ q hq
      rw [threadStep] at hq
      split at hq
      · cases hq; simp
      · cases hq; simp
    case twrEmptyE =>
      intro s₂ cas₂ q hq
      rw [threadStep] at hq
      cases hq; simp
    case twrEmptyI e =>
      intro s₂ cas₂ q hq
      rw [threadStep] at hq
      split at hq
      · cases hq; simp
      · cases hq; simp
    case twrRelease =>
      intro s₂ cas₂ q hq
      rw [threadStep] at hq
      rw [writers_lock_release] at hq
      split at hq
      · simp only [Option.map_some', Option.some_inj] at hq
        cases hq; simp
      · simp at hq

/-- Witness for `trywrlock_spec`: a successful call on the fresh state,
and a concrete non-spinning step of `twrBarrier`. -/
theorem trywrlock_spec_witness :
    (((0 : Int) = 0) ↔ (writers_barrier_israised initState = false ∧
      (writers_lock_acquire true initState).1 = true ∧
      read_indicator_isempty (writers_lock_acquire true initState).2 = true)) ∧
    (Phase.twrCas, initState).1 ≠ Phase.twrBarrier :=
  ⟨((trywrlock_spec true initState).1 0 ⟨0, 0, 0, true⟩ (by decide)).1,
   (trywrlock_spec true initState).2 Phase.twrBarrier rfl initState true
     (Phase.twrCas, initState) (by decide)⟩

/-- **C7**: the single-threaded sequence
`init → wrlock → downgrade → rdunlock → destroy` succeeds with no
assertion failure; `downgrade` posts the ingress increment first (the
intermediate state still has the flag held) and releases the flag
second; the final state has the flag clear and the read-indicator
empty. -/
theorem init_wrlock_downgrade_rdunlock_destroy (s : LockState) :
    rwlock_wrlock true (rwlock_init s) = some ⟨0, 0, 0, true⟩ ∧
    (read_indicator_arrive ⟨0, 0, 0, true⟩).readers_ingress = 1 ∧
    (read_indicator_arrive ⟨0, 0, 0, true⟩).writers_lock = true ∧
    rwlock_downgrade ⟨0, 0, 0, true⟩ =
      writers_lock_release (read_indicator_arrive ⟨0, 0, 0, true⟩) ∧
    rwlock_downgrade ⟨0, 0, 0, true⟩ = some ⟨1, 0, 0, false⟩ ∧
    rwlock_rdunlock ⟨1, 0, 0, false⟩ = ⟨1, 1, 0, false⟩ ∧
    rwlock_destroy ⟨1, 1, 0, false⟩ = some () ∧
    (⟨1, 1, 0, false⟩ : LockState).writers_lock = false ∧
    read_indicator_isempty ⟨1, 1, 0, false⟩ = true :=
  ⟨rfl, rfl, rfl, rfl, rfl, rfl, rfl, rfl, rfl⟩

/-- **C8**: `wrunlock` is exactly `writers_lock_release`: with the flag
held, the strong CAS observes it and clears it (the assertion passes);
with the flag clear the CAS fails and the assertion fires — a fatal
failure (`none`), not a recoverable error. -/
theorem wrunlock_spec (s : LockState) :
    rwlock_wrunlock s = writers_lock_release s ∧
    (s.writers_lock = true →
      rwlock_wrunlock s = some { s with writers_lock := false }) ∧
    (s.writers_lock = false → rwlock_wrunlock s = none) := by
  refine ⟨rfl, ?_, ?_⟩
  · intro hw
    rw [rwlock_wrunlock, writers_lock_release]
    simp [hw, RWLOCK_LOCKED, RWLOCK_UNLOCKED]
  · intro hw
    rw [rwlock_wrunlock, writers_lock_release]
    simp [hw, RWLOCK_LOCKED]

/-- Witness for `wrunlock_spec` at a held and an unheld lock. -/
theorem wrunlock_spec_witness :
    rwlock_wrunlock ⟨0, 0, 0, true⟩ = some ⟨0, 0, 0, false⟩ ∧
    rwlock_wrunlock ⟨0, 0, 0, false⟩ = none :=
  ⟨(wrunlock_spec ⟨0, 0, 0, true⟩).2.1 rfl,
   (wrunlock_spec ⟨0, 0, 0, false⟩).2.2 rfl⟩

/-- **C9**: `set_worker_hint` is advisory only: it stores the hint into
the process-wide cell, and every lock operation reads only the lock
fields, so for any two hint values every operation produces identical
results and identical lock state. -/
theorem setworkers_advisory (g : GlobalState) (w₁ w₂ : Nat) (cas : Bool) :
    (rwlock_setworkers w₁ g).lock = (rwlock_setworkers w₂ g).lock ∧
    (rwlock_setworkers w₁ g).workers = w₁ % 65536 ∧
    rwlock_rdlock (rwlock_setworkers w₁ g).lock =
      rwlock_rdlock (rwlock_setworkers w₂ g).lock ∧
    rwlock_tryrdlock (rwlock_setworkers w₁ g).lock =
      rwlock_tryrdlock (rwlock_setworkers w₂ g).lock ∧
    rwlock_rdunlock (rwlock_setworkers w₁ g).lock =
      rwlock_rdunlock (rwlock_setworkers w₂ g).lock ∧
    rwlock_wrlock cas (rwlock_setworkers w₁ g).lock =
      rwlock_wrlock cas (rwlock_setworkers w₂ g).lock ∧
    rwlock_trywrlock cas (rwlock_setworkers w₁ g).lock =
      rwlock_trywrlock cas (rwlock_setworkers w₂ g).lock ∧
    rwlock_wrunlock (rwlock_setworkers w₁ g).lock =
      rwlock_wrunlock (rwlock_setworkers w₂ g).lock ∧
    rwlock_tryupgrade cas (rwlock_setworkers w₁ g).lock =
      rwlock_tryupgrade cas (rwlock_setworkers w₂ g).lock ∧
    rwlock_downgrade (rwlock_setworkers w₁ g).lock =
      rwlock_downgrade (rwlock_setworkers w₂ g).lock ∧
    rwlock_destroy (rwlock_setworkers w₁ g).lock =
      rwlock_destroy (rwlock_setworkers w₂ g).lock ∧
    rwlock_init (rwlock_setworkers w₁ g).lock =
      rwlock_init (rwlock_setworkers w₂ g).lock :=
  ⟨rfl, rfl, rfl, rfl, rfl, rfl, rfl, rfl, rfl, rfl, rfl, rfl⟩

/-- **C10**: `rwlock_init` unconditionally stores the fresh state
(zero counters, flag clear) with no precondition check or assertion —
also on a lock that is currently held or has readers inside. -/
theorem init_unconditional (s : LockState) :
    rwlock_init s = initState ∧
    (rwlock_init s).readers_ingress = 0 ∧
    (rwlock_init s).readers_egress = 0 ∧
    (rwlock_init s).writers_barrier = 0 ∧
    (rwlock_init s).writers_lock = false ∧
    read_indicator_isempty (rwlock_init s) = true :=
  ⟨rfl, rfl, rfl, rfl, rfl, rfl⟩

end RwLock
